import Mathlib

/-!
Shallow embedding of `src/Vote/src/vote_backend/src/lib.rs`, a proposal
ledger with vote tallying (an Internet Computer canister).

Modelling choices:
* `candid::Principal` is an opaque, equality-comparable identity token; it
  is modelled as `Nat`.
* The `u64` keys of the stable map are modelled as `Nat` (no arithmetic is
  ever performed on keys, so overflow cannot matter).
* The `u32` vote counters are modelled as `Nat`.  Every increment of a
  counter is paired with pushing a fresh principal onto the `voted` vector,
  and the record is a `BoundedStorable` with `MAX_SIZE = 100` bytes, so the
  counters stay far below `2^32` in every run of the deployed code;
  wrap-around is unreachable and the `Nat` model is faithful.
* `StableBTreeMap<u64, Proposal, _>` is modelled as an association list
  with distinct keys; `insert` replaces in place and returns the previous
  value, `get` looks up, `len` is the number of entries, exactly the
  contract of the source map.
* The `f64` percentage computation in `get_proposal_status` is modelled
  with exact rational arithmetic.  For `u32` operands the two agree:
  `total < 2^32`, so an exact share `approve/total` that is different from
  `1/2` differs from it by at least `2^-33`, while double rounding of the
  quotient and of the product by `100.0` can move the computed value by
  less than `2^-40` relative; hence `(approve as f64 / total as f64) *
  100.0 >= 50.0` holds exactly when the rational share is at least `1/2`.
* An `.unwrap()` on a missing key traps the canister call; the IC runtime
  then rolls the state back.  A trapping call is modelled by an `Option`
  result whose `none` branch returns the store unchanged.
-/

/-- Identity token of a caller (`candid::Principal`): modelled as an
equality-comparable atom. -/
abbrev Principal := Nat

/-- The persisted `Proposal` record of the source. -/
structure Proposal where
  description : String
  approve : Nat
  reject : Nat
  pass : Nat
  is_active : Bool
  voted : List Principal
  owner : Principal
deriving DecidableEq, Repr

/-- The `CreateProposal` argument record of the source. -/
structure CreateProposal where
  description : String
  is_active : Bool
deriving DecidableEq, Repr

/-- The `VoteTypes` enum of the source. -/
inductive VoteTypes where
  | Approve
  | Reject
  | Pass
deriving DecidableEq, Repr

/-- The `VoteError` enum of the source. -/
inductive VoteError where
  | AlreadyVoted
  | ProposalNotActive
  | Unauthorized
  | NoProposal
  | UpdateError
  | VoteFailed
deriving DecidableEq, Repr

/-- The stable map `PROPOSAL_MAP`: an association list with (invariantly)
distinct keys. -/
abbrev ProposalMap := List (Nat × Proposal)

/-- Embeds `StableBTreeMap::get`. -/
def mapGet (m : ProposalMap) (k : Nat) : Option Proposal :=
  match m with
  | [] => none
  | (k', v) :: rest => if k' = k then some v else mapGet rest k

/-- Embeds `StableBTreeMap::insert`: stores `v` at `k`, returning the previous
value at `k` (or `none`) together with the updated map. -/
def mapInsert (m : ProposalMap) (k : Nat) (v : Proposal) :
    Option Proposal × ProposalMap :=
  match m with
  | [] => (none, [(k, v)])
  | (k', v') :: rest =>
    if k' = k then (some v', (k', v) :: rest)
    else
      let r := mapInsert rest k v
      (r.1, (k', v') :: r.2)

/-- Embeds `StableBTreeMap::len`. -/
def mapLen (m : ProposalMap) : Nat := m.length

/-- The query `get_proposal(key)`: returns the stored record, if any. -/
def get_proposal (m : ProposalMap) (key : Nat) : Option Proposal :=
  mapGet m key

/-- The query `get_proposal_count()`: the number of stored proposals. -/
def get_proposal_count (m : ProposalMap) : Nat :=
  mapLen m

/-- The query `get_proposal_status(key)`, with the `f64` percentages of the
source rendered as exact rationals (see the header comment: the two agree
for `u32` counters). -/
def get_proposal_status (m : ProposalMap) (key : Nat) : Option String :=
  match mapGet m key with
  | none => none
  | some proposal =>
    if proposal.voted.length < 5 then
      -- The proposal does not have enough votes for evaluation.
      some "Undecided"
    else
      let total_votes := proposal.approve + proposal.reject + proposal.pass
      let approval_percentage : ℚ :=
        (proposal.approve : ℚ) / (total_votes : ℚ) * 100
      let rejection_percentage : ℚ :=
        (proposal.reject : ℚ) / (total_votes : ℚ) * 100
      let pass_percentage : ℚ :=
        (proposal.pass : ℚ) / (total_votes : ℚ) * 100
      if approval_percentage ≥ 50 then some "Approved"
      else if rejection_percentage ≥ 50 then some "Rejected"
      else if pass_percentage ≥ 50 then some "Passed"
      else some "Undecided"

/-- The update call `create_proposal(key, proposal)`: inserts a fresh record owned
by the caller, returning the displaced record (if any) and the new store. -/
def create_proposal (caller : Principal) (m : ProposalMap) (key : Nat)
    (proposal : CreateProposal) : Option Proposal × ProposalMap :=
  let value : Proposal :=
    { description := proposal.description
      approve := 0
      reject := 0
      pass := 0
      is_active := proposal.is_active
      voted := []
      owner := caller }
  mapInsert m key value

/-- The update call `edit_proposal(key, proposal)`. -/
def edit_proposal (caller : Principal) (m : ProposalMap) (key : Nat)
    (proposal : CreateProposal) : Except VoteError Unit × ProposalMap :=
  match mapGet m key with
  | none => (Except.error VoteError.NoProposal, m)
  | some old_proposal =>
    if caller ≠ old_proposal.owner then
      (Except.error VoteError.Unauthorized, m)
    else
      let value : Proposal :=
        { description := proposal.description
          approve := old_proposal.approve
          reject := old_proposal.reject
          pass := old_proposal.pass
          is_active := proposal.is_active
          voted := old_proposal.voted
          owner := caller }
      let res := mapInsert m key value
      ((match res.1 with
        | some _ => Except.ok ()
        | none => Except.error VoteError.UpdateError), res.2)

/-- The update call `end_proposal(key)`.  The source fetches the record with an
unchecked `.unwrap()`; on a missing key the call traps and the runtime
rolls the state back, modelled by the `none` result with the store
unchanged. -/
def end_proposal (caller : Principal) (m : ProposalMap) (key : Nat) :
    Option (Except VoteError Unit) × ProposalMap :=
  match mapGet m key with
  | none => (none, m)
  | some proposal =>
    if caller ≠ proposal.owner then
      (some (Except.error VoteError.Unauthorized), m)
    else
      let value : Proposal := { proposal with is_active := false }
      let res := mapInsert m key value
      (some (match res.1 with
        | some _ => Except.ok ()
        | none => Except.error VoteError.UpdateError), res.2)

/-- The update call `vote(key, choice)`.  The record fetch is an unchecked
`.unwrap()` as in `end_proposal`. -/
def vote (caller : Principal) (m : ProposalMap) (key : Nat)
    (choice : VoteTypes) : Option (Except VoteError Unit) × ProposalMap :=
  match mapGet m key with
  | none => (none, m)
  | some proposal =>
    if proposal.voted.contains caller then
      (some (Except.error VoteError.AlreadyVoted), m)
    else if !proposal.is_active then
      (some (Except.error VoteError.ProposalNotActive), m)
    else
      let bumped : Proposal :=
        match choice with
        | VoteTypes.Approve => { proposal with approve := proposal.approve + 1 }
        | VoteTypes.Reject => { proposal with reject := proposal.reject + 1 }
        | VoteTypes.Pass => { proposal with pass := proposal.pass + 1 }
      let value : Proposal := { bumped with voted := bumped.voted ++ [caller] }
      let res := mapInsert m key value
      (some (match res.1 with
        | some _ => Except.ok ()
        | none => Except.error VoteError.VoteFailed), res.2)

/-- One public update call, used to quantify over operation sequences. -/
inductive Op where
  | create (caller : Principal) (key : Nat) (proposal : CreateProposal)
  | edit (caller : Principal) (key : Nat) (proposal : CreateProposal)
  | close (caller : Principal) (key : Nat)
  | cast (caller : Principal) (key : Nat) (choice : VoteTypes)
deriving DecidableEq, Repr

/-- The store after one call (results discarded). -/
def stepOp (m : ProposalMap) (op : Op) : ProposalMap :=
  match op with
  | Op.create caller key proposal => (create_proposal caller m key proposal).2
  | Op.edit caller key proposal => (edit_proposal caller m key proposal).2
  | Op.close caller key => (end_proposal caller m key).2
  | Op.cast caller key choice => (vote caller m key choice).2

/-- The store after a sequence of calls, starting from `m`. -/
def runOps (m : ProposalMap) (ops : List Op) : ProposalMap :=
  ops.foldl stepOp m

/-- Whether an operation is a `create_proposal` call. -/
def Op.isCreate : Op → Bool
  | Op.create _ _ _ => true
  | _ => false

/-- A sample stored proposal used by the concrete witnesses below. -/
def sampleP : Proposal :=
  { description := "sample", approve := 1, reject := 0, pass := 1,
    is_active := true, voted := [3, 4], owner := 9 }

/-- The record invariant: no duplicate voter, and the counters sum to the
number of voters. -/
def ProposalInv (p : Proposal) : Prop :=
  p.voted.Nodup ∧ p.approve + p.reject + p.pass = p.voted.length

/-- Every stored record satisfies the record invariant. -/
def StoreInv (m : ProposalMap) : Prop :=
  ∀ key p, mapGet m key = some p → ProposalInv p

/-- The previous value reported by `insert` is exactly what `get` saw. -/
theorem mapInsert_fst (m : ProposalMap) (k : Nat) (v : Proposal) :
    (mapInsert m k v).1 = mapGet m k := by
  induction m with
  | nil => rfl
  | cons hd tl ih =>
    obtain ⟨k1, v1⟩ := hd
    simp only [mapInsert, mapGet]
    by_cases h : k1 = k <;> simp [h, ih]

/-- Lookup after insert: the inserted key reads back the new value, every
other key is untouched. -/
theorem mapGet_mapInsert (m : ProposalMap) (k k' : Nat) (v : Proposal) :
    mapGet (mapInsert m k v).2 k' =
      if k = k' then some v else mapGet m k' := by
  induction m with
  | nil =>
    simp only [mapInsert, mapGet]
  | cons hd tl ih =>
    obtain ⟨k1, v1⟩ := hd
    simp only [mapInsert, mapGet]
    by_cases h : k1 = k
    · subst h
      simp only [if_pos rfl, mapGet]
      by_cases h' : k1 = k' <;> simp [h']
    · simp only [if_neg h, mapGet, ih]
      by_cases h1 : k1 = k' <;> by_cases h2 : k = k' <;>
        simp_all

/-- `insert` grows the map by one entry exactly when the key was absent. -/
theorem mapLen_mapInsert (m : ProposalMap) (k : Nat) (v : Proposal) :
    mapLen (mapInsert m k v).2 =
      if (mapGet m k).isSome then mapLen m else mapLen m + 1 := by
  induction m with
  | nil => simp [mapInsert, mapGet, mapLen]
  | cons hd tl ih =>
    obtain ⟨k1, v1⟩ := hd
    simp only [mapInsert, mapGet]
    by_cases h : k1 = k
    · simp [h, mapLen]
    · simp only [if_neg h, mapLen, List.length_cons] at ih ⊢
      rw [ih]
      by_cases h' : (mapGet tl k).isSome <;> simp [h']

/-- Re-inserting the value already stored at a key leaves the map equal. -/
theorem mapInsert_get_self (m : ProposalMap) (k : Nat) (v : Proposal)
    (h : mapGet m k = some v) : (mapInsert m k v).2 = m := by
  induction m with
  | nil => simp [mapGet] at h
  | cons hd tl ih =>
    obtain ⟨k1, v1⟩ := hd
    simp only [mapGet] at h
    simp only [mapInsert]
    by_cases hk : k1 = k
    · simp only [if_pos hk] at h ⊢
      obtain rfl : v1 = v := by simpa using h
      rfl
    · simp only [if_neg hk] at h ⊢
      simp [ih h]

/-- C9: on a key absent from the store, `end_proposal` and `vote` hit the
unchecked `.unwrap()` of the record fetch: the embedded call reaches the
trap branch (`none` result, no `VoteError` value is returned) and the
store is left unchanged. -/
theorem missing_key_traps (m : ProposalMap) (key : Nat) (caller : Principal)
    (choice : VoteTypes) (h : mapGet m key = none) :
    end_proposal caller m key = (none, m) ∧
    vote caller m key choice = (none, m) := by
  constructor
  · simp [end_proposal, h]
  · simp [vote, h]

theorem missing_key_traps_witness :
    end_proposal 1 [] 7 = (none, []) ∧
    vote 1 [] 7 VoteTypes.Approve = (none, []) :=
  missing_key_traps [] 7 1 VoteTypes.Approve rfl

/-- C7: `create_proposal` always succeeds: it returns the record displaced
at the key (`none` on a fresh key), stores a record with zero counters, an
empty voted list and the caller as owner, and `get_proposal_count` grows
by exactly one on a fresh key and is unchanged on an occupied key. -/
theorem create_proposal_spec (caller : Principal) (m : ProposalMap)
    (key : Nat) (cp : CreateProposal) :
    (create_proposal caller m key cp).1 = mapGet m key ∧
    mapGet (create_proposal caller m key cp).2 key =
      some { description := cp.description, approve := 0, reject := 0,
             pass := 0, is_active := cp.is_active, voted := [],
             owner := caller } ∧
    (mapGet m key = none →
      get_proposal_count (create_proposal caller m key cp).2 =
        get_proposal_count m + 1) ∧
    (∀ q, mapGet m key = some q →
      get_proposal_count (create_proposal caller m key cp).2 =
        get_proposal_count m) := by
  refine ⟨mapInsert_fst m key _, ?_, ?_, ?_⟩
  · simp only [create_proposal]
    rw [mapGet_mapInsert]
    simp
  · intro h
    simp only [create_proposal, get_proposal_count]
    rw [mapLen_mapInsert]
    simp [h]
  · intro q hq
    simp only [create_proposal, get_proposal_count]
    rw [mapLen_mapInsert]
    simp [hq]

theorem create_proposal_spec_witness :
    (create_proposal 9 [] 7 ⟨"d", true⟩).1 = none ∧
    get_proposal_count (create_proposal 9 [] 7 ⟨"d", true⟩).2 = 1 ∧
    mapGet [(7, sampleP)] 7 = some sampleP ∧
    get_proposal_count (create_proposal 9 [(7, sampleP)] 7 ⟨"d", true⟩).2 = 1 := by
  have h1 := (create_proposal_spec 9 [] 7 ⟨"d", true⟩).2.2.1 rfl
  have h2 := (create_proposal_spec 9 [(7, sampleP)] 7 ⟨"d", true⟩).2.2.2
    sampleP rfl
  have h3 := (create_proposal_spec 9 [] 7 ⟨"d", true⟩).1
  refine ⟨?_, ?_, rfl, ?_⟩
  · rw [h3]; rfl
  · rw [h1]; rfl
  · rw [h2]; rfl

/-- C3: `vote` checks the already-voted condition before the activity
condition: for a stored proposal, a caller already in the voted list gets
`AlreadyVoted` (with the store unchanged) even when the proposal is
inactive, and a caller not in the voted list gets `ProposalNotActive`
exactly when `is_active` is false. -/
theorem vote_precedence (m : ProposalMap) (key : Nat) (p : Proposal)
    (caller : Principal) (choice : VoteTypes)
    (h : mapGet m key = some p) :
    (caller ∈ p.voted →
      vote caller m key choice =
        (some (Except.error VoteError.AlreadyVoted), m)) ∧
    (caller ∉ p.voted →
      (((vote caller m key choice).1 =
          some (Except.error VoteError.ProposalNotActive)) ↔
        p.is_active = false)) := by
  constructor
  · intro hv
    simp [vote, h, hv]
  · intro hv
    by_cases ha : p.is_active
    · simp [vote, h, hv, ha, mapInsert_fst]
    · simp [vote, h, hv, ha]

theorem vote_precedence_witness :
    (3 ∈ sampleP.voted ∧
      vote 3 [(7, sampleP)] 7 VoteTypes.Approve =
        (some (Except.error VoteError.AlreadyVoted), [(7, sampleP)])) ∧
    ((5 : Principal) ∉ sampleP.voted ∧
      ((vote 5 [(7, sampleP)] 7 VoteTypes.Approve).1 =
          some (Except.error VoteError.ProposalNotActive) ↔
        sampleP.is_active = false)) := by
  have h := vote_precedence [(7, sampleP)] 7 sampleP 3 VoteTypes.Approve rfl
  have h' := vote_precedence [(7, sampleP)] 7 sampleP 5 VoteTypes.Approve rfl
  exact ⟨⟨by decide, h.1 (by decide)⟩, ⟨by decide, h'.2 (by decide)⟩⟩

/-- C5: a successful owner edit replaces exactly the description and the
active flag, preserves the three counters and the voted list verbatim, and
writes the calling identity into the owner field; an absent key yields
`NoProposal` and a non-owner caller yields `Unauthorized` (store unchanged
in both failure cases). -/
theorem edit_proposal_spec (caller : Principal) (m : ProposalMap)
    (key : Nat) (cp : CreateProposal) :
    (mapGet m key = none →
      edit_proposal caller m key cp = (Except.error VoteError.NoProposal, m)) ∧
    (∀ p, mapGet m key = some p → caller ≠ p.owner →
      edit_proposal caller m key cp =
        (Except.error VoteError.Unauthorized, m)) ∧
    (∀ p, mapGet m key = some p → caller = p.owner →
      (edit_proposal caller m key cp).1 = Except.ok () ∧
      mapGet (edit_proposal caller m key cp).2 key =
        some { description := cp.description, approve := p.approve,
               reject := p.reject, pass := p.pass,
               is_active := cp.is_active, voted := p.voted,
               owner := caller } ∧
      (∀ k', k' ≠ key →
        mapGet (edit_proposal caller m key cp).2 k' = mapGet m k')) := by
  refine ⟨?_, ?_, ?_⟩
  · intro h
    simp [edit_proposal, h]
  · intro p hp hown
    simp [edit_proposal, hp, hown]
  · intro p hp hown
    refine ⟨?_, ?_, ?_⟩
    · simp [edit_proposal, hp, hown, mapInsert_fst]
    · simp only [edit_proposal, hp, hown, ne_eq, not_true_eq_false, if_false]
      rw [mapGet_mapInsert]
      simp
    · intro k' hk'
      simp only [edit_proposal, hp, hown, ne_eq, not_true_eq_false, if_false]
      rw [mapGet_mapInsert, if_neg (Ne.symm hk')]

theorem edit_proposal_spec_witness :
    (edit_proposal 9 [] 7 ⟨"e", false⟩ =
      (Except.error VoteError.NoProposal, [])) ∧
    (edit_proposal 5 [(7, sampleP)] 7 ⟨"e", false⟩ =
      (Except.error VoteError.Unauthorized, [(7, sampleP)])) ∧
    ((edit_proposal 9 [(7, sampleP)] 7 ⟨"e", false⟩).1 = Except.ok () ∧
      mapGet (edit_proposal 9 [(7, sampleP)] 7 ⟨"e", false⟩).2 7 =
        some { description := "e", approve := 1, reject := 0, pass := 1,
               is_active := false, voted := [3, 4], owner := 9 } ∧
      mapGet (edit_proposal 9 [(7, sampleP)] 7 ⟨"e", false⟩).2 8 =
        mapGet [(7, sampleP)] 8) := by
  have h1 := (edit_proposal_spec 9 [] 7 ⟨"e", false⟩).1 rfl
  have h2 := (edit_proposal_spec 5 [(7, sampleP)] 7 ⟨"e", false⟩).2.1
    sampleP rfl (by decide)
  have h3 := (edit_proposal_spec 9 [(7, sampleP)] 7 ⟨"e", false⟩).2.2
    sampleP rfl rfl
  exact ⟨h1, h2, h3.1, h3.2.1, h3.2.2 8 (by decide)⟩

/-- C8: for a stored proposal whose owner is the caller, `end_proposal`
sets `is_active` to false and returns success without inspecting the
current activity state; every other field is preserved, other keys are
untouched, and closing an already-closed proposal is a no-op that still
succeeds. -/
theorem end_proposal_spec (m : ProposalMap) (key : Nat) (p : Proposal)
    (caller : Principal) (h : mapGet m key = some p)
    (hown : caller = p.owner) :
    (end_proposal caller m key).1 = some (Except.ok ()) ∧
    mapGet (end_proposal caller m key).2 key =
      some { p with is_active := false } ∧
    (∀ k', k' ≠ key → mapGet (end_proposal caller m key).2 k' = mapGet m k') ∧
    (p.is_active = false → (end_proposal caller m key).2 = m) := by
  refine ⟨?_, ?_, ?_, ?_⟩
  · simp [end_proposal, h, hown, mapInsert_fst]
  · simp only [end_proposal, h, hown, ne_eq, not_true_eq_false, if_false]
    rw [mapGet_mapInsert]
    simp
  · intro k' hk'
    simp only [end_proposal, h, hown, ne_eq, not_true_eq_false, if_false]
    rw [mapGet_mapInsert, if_neg (Ne.symm hk')]
  · intro hact
    have hpeq : ({ p with is_active := false } : Proposal) = p := by
      cases p
      simp_all
    simp only [end_proposal, h, hown, ne_eq, not_true_eq_false, if_false]
    rw [hpeq, mapInsert_get_self m key p h]

theorem end_proposal_spec_witness :
    (end_proposal 9 [(7, sampleP)] 7).1 = some (Except.ok ()) ∧
    mapGet (end_proposal 9 [(7, sampleP)] 7).2 7 =
      some { sampleP with is_active := false } ∧
    (end_proposal 9 [(7, { sampleP with is_active := false })] 7).2 =
      [(7, { sampleP with is_active := false })] := by
  have h1 := end_proposal_spec [(7, sampleP)] 7 sampleP 9 rfl rfl
  have h2 := end_proposal_spec [(7, { sampleP with is_active := false })] 7
    { sampleP with is_active := false } 9 rfl rfl
  exact ⟨h1.1, h1.2.1, h2.2.2.2 rfl⟩

/-- C10: in the serialized execution model the store-consistency error
branches are dead code: no call of `edit_proposal` or `end_proposal` ever
returns `UpdateError`, no call of `vote` ever returns `VoteFailed`, and
whenever the initial lookup finds a record and validation passes the final
insert finds the previous record again, so the call returns success. -/
theorem insert_errors_unreachable (m : ProposalMap) (caller : Principal)
    (key : Nat) (cp : CreateProposal) (choice : VoteTypes) :
    (edit_proposal caller m key cp).1 ≠ Except.error VoteError.UpdateError ∧
    (end_proposal caller m key).1 ≠ some (Except.error VoteError.UpdateError) ∧
    (vote caller m key choice).1 ≠ some (Except.error VoteError.VoteFailed) ∧
    (∀ p, mapGet m key = some p →
      (caller = p.owner →
        (edit_proposal caller m key cp).1 = Except.ok () ∧
        (end_proposal caller m key).1 = some (Except.ok ())) ∧
      (caller ∉ p.voted → p.is_active = true →
        (vote caller m key choice).1 = some (Except.ok ()))) := by
  refine ⟨?_, ?_, ?_, ?_⟩
  · cases hm : mapGet m key with
    | none => simp [edit_proposal, hm]
    | some p =>
      by_cases hown : caller = p.owner <;>
        simp [edit_proposal, hm, hown, mapInsert_fst]
  · cases hm : mapGet m key with
    | none => simp [end_proposal, hm]
    | some p =>
      by_cases hown : caller = p.owner <;>
        simp [end_proposal, hm, hown, mapInsert_fst]
  · cases hm : mapGet m key with
    | none => simp [vote, hm]
    | some p =>
      by_cases hv : caller ∈ p.voted
      · simp [vote, hm, hv]
      · by_cases ha : p.is_active <;>
          simp [vote, hm, hv, ha, mapInsert_fst]
  · intro p hp
    constructor
    · intro hown
      constructor
      · simp [edit_proposal, hp, hown, mapInsert_fst]
      · simp [end_proposal, hp, hown, mapInsert_fst]
    · intro hv ha
      simp [vote, hp, hv, ha, mapInsert_fst]

theorem insert_errors_unreachable_witness :
    (edit_proposal 9 [(7, sampleP)] 7 ⟨"e", true⟩).1 = Except.ok () ∧
    (end_proposal 9 [(7, sampleP)] 7).1 = some (Except.ok ()) ∧
    (vote 5 [(7, sampleP)] 7 VoteTypes.Reject).1 = some (Except.ok ()) := by
  have h1 := (insert_errors_unreachable [(7, sampleP)] 9 7 ⟨"e", true⟩
    VoteTypes.Reject).2.2.2 sampleP rfl
  have h2 := (insert_errors_unreachable [(7, sampleP)] 5 7 ⟨"e", true⟩
    VoteTypes.Reject).2.2.2 sampleP rfl
  exact ⟨(h1.1 rfl).1, (h1.1 rfl).2, h2.2 (by decide) rfl⟩

/-- C4: every error return leaves the store unchanged: whenever
`edit_proposal`, `end_proposal` or `vote` returns a `VoteError`, the
returned store equals the store before the call (so the record at the
given key and at every other key is identical), and in particular a
non-owner `edit_proposal`/`end_proposal` returns `Unauthorized` with the
store untouched. -/
theorem error_leaves_store_unchanged (m : ProposalMap) (caller : Principal)
    (key : Nat) (cp : CreateProposal) (choice : VoteTypes) :
    (∀ e, (edit_proposal caller m key cp).1 = Except.error e →
      (edit_proposal caller m key cp).2 = m) ∧
    (∀ e, (end_proposal caller m key).1 = some (Except.error e) →
      (end_proposal caller m key).2 = m) ∧
    (∀ e, (vote caller m key choice).1 = some (Except.error e) →
      (vote caller m key choice).2 = m) ∧
    (∀ p, mapGet m key = some p → caller ≠ p.owner →
      edit_proposal caller m key cp =
        (Except.error VoteError.Unauthorized, m) ∧
      end_proposal caller m key =
        (some (Except.error VoteError.Unauthorized), m)) := by
  refine ⟨?_, ?_, ?_, ?_⟩
  · intro e he
    cases hm : mapGet m key with
    | none => simp [edit_proposal, hm]
    | some p =>
      by_cases hown : caller = p.owner
      · simp [edit_proposal, hm, hown, mapInsert_fst] at he
      · simp [edit_proposal, hm, hown]
  · intro e he
    cases hm : mapGet m key with
    | none => simp [end_proposal, hm]
    | some p =>
      by_cases hown : caller = p.owner
      · simp [end_proposal, hm, hown, mapInsert_fst] at he
      · simp [end_proposal, hm, hown]
  · intro e he
    cases hm : mapGet m key with
    | none => simp [vote, hm]
    | some p =>
      by_cases hv : caller ∈ p.voted
      · simp [vote, hm, hv]
      · by_cases ha : p.is_active
        · simp [vote, hm, hv, ha, mapInsert_fst] at he
        · simp [vote, hm, hv, ha]
  · intro p hp hown
    exact ⟨by simp [edit_proposal, hp, hown], by simp [end_proposal, hp, hown]⟩

theorem error_leaves_store_unchanged_witness :
    (edit_proposal 5 [(7, sampleP)] 7 ⟨"e", true⟩ =
      (Except.error VoteError.Unauthorized, [(7, sampleP)])) ∧
    (end_proposal 5 [(7, sampleP)] 7 =
      (some (Except.error VoteError.Unauthorized), [(7, sampleP)])) ∧
    (vote 3 [(7, sampleP)] 7 VoteTypes.Pass).2 = [(7, sampleP)] := by
  have h1 := (error_leaves_store_unchanged [(7, sampleP)] 5 7 ⟨"e", true⟩
    VoteTypes.Pass).2.2.2 sampleP rfl (by decide)
  have h2 := (error_leaves_store_unchanged [(7, sampleP)] 3 7 ⟨"e", true⟩
    VoteTypes.Pass).2.2.1 VoteError.AlreadyVoted rfl
  exact ⟨h1.1, h1.2, h2⟩

theorem storeInv_step (m : ProposalMap) (op : Op) (h : StoreInv m) :
    StoreInv (stepOp m op) := by
  cases op with
  | create caller key cp =>
    intro k q hq
    simp only [stepOp, create_proposal] at hq
    rw [mapGet_mapInsert] at hq
    split at hq
    · cases hq
      exact ⟨List.nodup_nil, rfl⟩
    · exact h k q hq
  | edit caller key cp =>
    intro k q hq
    cases hm : mapGet m key with
    | none =>
      simp only [stepOp, edit_proposal, hm] at hq
      exact h k q hq
    | some old =>
      simp only [stepOp, edit_proposal, hm] at hq
      split at hq
      · exact h k q hq
      · dsimp only at hq
        rw [mapGet_mapInsert] at hq
        split at hq
        · cases hq
          exact ⟨(h key old hm).1, (h key old hm).2⟩
        · exact h k q hq
  | close caller key =>
    intro k q hq
    cases hm : mapGet m key with
    | none =>
      simp only [stepOp, end_proposal, hm] at hq
      exact h k q hq
    | some old =>
      simp only [stepOp, end_proposal, hm] at hq
      split at hq
      · exact h k q hq
      · dsimp only at hq
        rw [mapGet_mapInsert] at hq
        split at hq
        · cases hq
          exact ⟨(h key old hm).1, (h key old hm).2⟩
        · exact h k q hq
  | cast caller key choice =>
    intro k q hq
    cases hm : mapGet m key with
    | none =>
      simp only [stepOp, vote, hm] at hq
      exact h k q hq
    | some old =>
      by_cases hmem : caller ∈ old.voted
      · have hv : old.voted.contains caller := by simpa using hmem
        simp [stepOp, vote, hm, hv, hmem] at hq
        exact h k q hq
      · have hv : ¬ old.voted.contains caller = true := by simpa using hmem
        by_cases ha : old.is_active
        · have hold := h key old hm
          have hnodup : (old.voted ++ [caller]).Nodup := by
            simp [List.nodup_append, hold.1, hmem]
          have hs := hold.2
          cases choice <;>
            (simp [stepOp, vote, hm, hv, hmem, ha] at hq
             rw [mapGet_mapInsert] at hq
             split at hq
             · cases hq
               refine ⟨hnodup, ?_⟩
               simp only [List.length_append, List.length_cons,
                 List.length_nil]
               omega
             · exact h k q hq)
        · simp [stepOp, vote, hm, hv, hmem, ha] at hq
          exact h k q hq

theorem storeInv_runOps (ops : List Op) :
    ∀ m, StoreInv m → StoreInv (runOps m ops) := by
  induction ops with
  | nil => intro m hm; exact hm
  | cons op rest ih =>
    intro m hm
    exact ih (stepOp m op) (storeInv_step m op hm)

theorem storeInv_empty : StoreInv [] := by
  intro k q hk
  simp [mapGet] at hk

/-- C2: in every store reachable from the empty store by any sequence of
`create_proposal`, `edit_proposal`, `end_proposal` and `vote` calls, every
stored record has a duplicate-free voted list whose length equals
`approve + reject + pass`. -/
theorem proposal_counts_match_voted (ops : List Op) (key : Nat)
    (p : Proposal) (h : mapGet (runOps [] ops) key = some p) :
    p.voted.Nodup ∧ p.approve + p.reject + p.pass = p.voted.length :=
  storeInv_runOps ops [] storeInv_empty key p h

theorem proposal_counts_match_voted_witness :
    mapGet (runOps [] [Op.create 9 7 ⟨"d", true⟩,
      Op.cast 3 7 VoteTypes.Approve, Op.cast 3 7 VoteTypes.Reject,
      Op.cast 4 7 VoteTypes.Pass]) 7 =
      some { description := "d", approve := 1, reject := 0, pass := 1,
             is_active := true, voted := [3, 4], owner := 9 } ∧
    ([3, 4] : List Principal).Nodup ∧ 1 + 0 + 1 = ([3, 4] : List Principal).length :=
  ⟨rfl, proposal_counts_match_voted [Op.create 9 7 ⟨"d", true⟩,
    Op.cast 3 7 VoteTypes.Approve, Op.cast 3 7 VoteTypes.Reject,
    Op.cast 4 7 VoteTypes.Pass] 7 _ rfl⟩

/-- A non-create step keeps every existing record present with the same
owner. -/
theorem stepOp_owner (m : ProposalMap) (op : Op) (key : Nat) (p : Proposal)
    (hop : op.isCreate = false) (h : mapGet m key = some p) :
    ∃ q, mapGet (stepOp m op) key = some q ∧ q.owner = p.owner := by
  cases op with
  | create caller k0 cp => simp [Op.isCreate] at hop
  | edit caller k0 cp =>
    cases hm : mapGet m k0 with
    | none => exact ⟨p, by simp [stepOp, edit_proposal, hm, h], rfl⟩
    | some old =>
      by_cases hown : caller = old.owner
      · by_cases hk : k0 = key
        · subst hk
          rw [h] at hm
          injection hm with hm'
          subst hm'
          refine ⟨{ description := cp.description, approve := p.approve,
                    reject := p.reject, pass := p.pass,
                    is_active := cp.is_active, voted := p.voted,
                    owner := caller }, ?_, hown⟩
          simp only [stepOp, edit_proposal, h, hown, ne_eq,
            not_true_eq_false, if_false]
          rw [mapGet_mapInsert, if_pos rfl]
        · refine ⟨p, ?_, rfl⟩
          simp only [stepOp, edit_proposal, hm, hown, ne_eq,
            not_true_eq_false, if_false]
          rw [mapGet_mapInsert, if_neg hk]
          exact h
      · exact ⟨p, by simp [stepOp, edit_proposal, hm, hown, h], rfl⟩
  | close caller k0 =>
    cases hm : mapGet m k0 with
    | none => exact ⟨p, by simp [stepOp, end_proposal, hm, h], rfl⟩
    | some old =>
      by_cases hown : caller = old.owner
      · by_cases hk : k0 = key
        · subst hk
          rw [h] at hm
          injection hm with hm'
          subst hm'
          refine ⟨{ p with is_active := false }, ?_, rfl⟩
          simp only [stepOp, end_proposal, h, hown, ne_eq,
            not_true_eq_false, if_false]
          rw [mapGet_mapInsert, if_pos rfl]
        · refine ⟨p, ?_, rfl⟩
          simp only [stepOp, end_proposal, hm, hown, ne_eq,
            not_true_eq_false, if_false]
          rw [mapGet_mapInsert, if_neg hk]
          exact h
      · exact ⟨p, by simp [stepOp, end_proposal, hm, hown, h], rfl⟩
  | cast caller k0 choice =>
    cases hm : mapGet m k0 with
    | none => exact ⟨p, by simp [stepOp, vote, hm, h], rfl⟩
    | some old =>
      by_cases hmem : caller ∈ old.voted
      · have hv : old.voted.contains caller := by simpa using hmem
        exact ⟨p, by simp [stepOp, vote, hm, hv, hmem, h], rfl⟩
      · have hv : ¬ old.voted.contains caller = true := by simpa using hmem
        by_cases ha : old.is_active
        · have hact : ¬ (!old.is_active) = true := by simp [ha]
          by_cases hk : k0 = key
          · subst hk
            rw [h] at hm
            injection hm with hm'
            subst hm'
            cases choice with
            | Approve =>
              refine ⟨{ p with approve := p.approve + 1, voted := p.voted ++ [caller] }, ?_, rfl⟩
              simp only [stepOp, vote, h]
              rw [if_neg hv, if_neg hact]
              dsimp only
              rw [mapGet_mapInsert, if_pos rfl]
            | Reject =>
              refine ⟨{ p with reject := p.reject + 1, voted := p.voted ++ [caller] }, ?_, rfl⟩
              simp only [stepOp, vote, h]
              rw [if_neg hv, if_neg hact]
              dsimp only
              rw [mapGet_mapInsert, if_pos rfl]
            | Pass =>
              refine ⟨{ p with pass := p.pass + 1, voted := p.voted ++ [caller] }, ?_, rfl⟩
              simp only [stepOp, vote, h]
              rw [if_neg hv, if_neg hact]
              dsimp only
              rw [mapGet_mapInsert, if_pos rfl]
          · refine ⟨p, ?_, rfl⟩
            simp only [stepOp, vote, hm]
            rw [if_neg hv, if_neg hact]
            dsimp only
            rw [mapGet_mapInsert, if_neg hk]
            exact h
        · exact ⟨p, by simp [stepOp, vote, hm, hv, hmem, ha, h], rfl⟩

/-- Non-create sequences keep every existing record present with the same
owner. -/
theorem runOps_owner (ops : List Op)
    (hops : ∀ op ∈ ops, op.isCreate = false) :
    ∀ m key p, mapGet m key = some p →
      ∃ q, mapGet (runOps m ops) key = some q ∧ q.owner = p.owner := by
  induction ops with
  | nil => exact fun m key p h => ⟨p, h, rfl⟩
  | cons op rest ih =>
    intro m key p h
    obtain ⟨q, hq, hqo⟩ := stepOp_owner m op key p (hops op (by simp)) h
    obtain ⟨r, hr, hro⟩ :=
      ih (fun o ho => hops o (by simp [ho])) (stepOp m op) key q hq
    exact ⟨r, hr, hro.trans hqo⟩

/-- C6: the owner written by `create_proposal` is immutable under any
sequence of `edit_proposal`, `end_proposal` and `vote` calls: after each
of them the record still carries the creating identity as owner. -/
theorem owner_immutable (creator : Principal) (m : ProposalMap) (key : Nat)
    (cp : CreateProposal) (ops : List Op)
    (hops : ∀ op ∈ ops, op.isCreate = false) :
    ∃ q, mapGet (runOps (create_proposal creator m key cp).2 ops) key =
        some q ∧ q.owner = creator := by
  have hc : mapGet (create_proposal creator m key cp).2 key =
      some { description := cp.description, approve := 0, reject := 0,
             pass := 0, is_active := cp.is_active, voted := [],
             owner := creator } := by
    simp only [create_proposal]
    rw [mapGet_mapInsert]
    simp
  obtain ⟨q, hq, hqo⟩ :=
    runOps_owner ops hops (create_proposal creator m key cp).2 key _ hc
  exact ⟨q, hq, hqo⟩

theorem owner_immutable_witness :
    ∃ q, mapGet (runOps (create_proposal 9 [] 7 ⟨"d", true⟩).2
        [Op.cast 3 7 VoteTypes.Approve, Op.edit 9 7 ⟨"e", false⟩,
         Op.close 9 7]) 7 = some q ∧ q.owner = 9 :=
  owner_immutable 9 [] 7 ⟨"d", true⟩
    [Op.cast 3 7 VoteTypes.Approve, Op.edit 9 7 ⟨"e", false⟩, Op.close 9 7]
    (by decide)

/-- A share of a positive total is at least 50 percent exactly when twice
the part covers the total. -/
theorem share_ge_half_iff (a t : Nat) (ht : 0 < t) :
    ((a : ℚ) / (t : ℚ) * 100 ≥ 50) ↔ t ≤ 2 * a := by
  have ht' : (0 : ℚ) < (t : ℚ) := by exact_mod_cast ht
  rw [ge_iff_le, div_mul_eq_mul_div, le_div_iff₀ ht']
  constructor
  · intro hle
    have h2 : (t : ℚ) ≤ 2 * (a : ℚ) := by linarith
    exact_mod_cast h2
  · intro hle
    have h2 : (t : ℚ) ≤ 2 * (a : ℚ) := by exact_mod_cast hle
    linarith

/-- C1: `get_proposal_status` returns `Undecided` for a stored proposal
with fewer than 5 voters; otherwise, with `total = approve+reject+pass`,
it returns `Approved`, `Rejected`, `Passed` (in that priority order) for
the first choice whose share of `total` is at least 50 percent, and
`Undecided` when none is.  In particular any 4-voter proposal is
`Undecided`, and 5-voter proposals split 3/1/1, 1/3/1, 1/1/3, 2/2/1 are
`Approved`, `Rejected`, `Passed`, `Undecided` respectively. -/
theorem get_proposal_status_spec :
    (∀ (m : ProposalMap) (key : Nat) (p : Proposal),
      mapGet m key = some p →
      p.approve + p.reject + p.pass = p.voted.length →
      get_proposal_status m key = some (
        if p.voted.length < 5 then "Undecided"
        else if p.approve + p.reject + p.pass ≤ 2 * p.approve then "Approved"
        else if p.approve + p.reject + p.pass ≤ 2 * p.reject then "Rejected"
        else if p.approve + p.reject + p.pass ≤ 2 * p.pass then "Passed"
        else "Undecided")) ∧
    (∀ (m : ProposalMap) (key : Nat) (p : Proposal),
      mapGet m key = some p → p.voted.length = 4 →
      get_proposal_status m key = some "Undecided") ∧
    get_proposal_status [(7, ⟨"d", 3, 1, 1, true, [1, 2, 3, 4, 5], 9⟩)] 7 =
      some "Approved" ∧
    get_proposal_status [(7, ⟨"d", 1, 3, 1, true, [1, 2, 3, 4, 5], 9⟩)] 7 =
      some "Rejected" ∧
    get_proposal_status [(7, ⟨"d", 1, 1, 3, true, [1, 2, 3, 4, 5], 9⟩)] 7 =
      some "Passed" ∧
    get_proposal_status [(7, ⟨"d", 2, 2, 1, true, [1, 2, 3, 4, 5], 9⟩)] 7 =
      some "Undecided" := by
  have main : ∀ (m : ProposalMap) (key : Nat) (p : Proposal),
      mapGet m key = some p →
      p.approve + p.reject + p.pass = p.voted.length →
      get_proposal_status m key = some (
        if p.voted.length < 5 then "Undecided"
        else if p.approve + p.reject + p.pass ≤ 2 * p.approve then "Approved"
        else if p.approve + p.reject + p.pass ≤ 2 * p.reject then "Rejected"
        else if p.approve + p.reject + p.pass ≤ 2 * p.pass then "Passed"
        else "Undecided") := by
    intro m key p h hsum
    simp only [get_proposal_status, h]
    by_cases hlen : p.voted.length < 5
    · simp [hlen]
    · have htot : 0 < p.approve + p.reject + p.pass := by omega
      rw [if_neg hlen, if_neg hlen]
      have e1 := share_ge_half_iff p.approve (p.approve + p.reject + p.pass) htot
      have e2 := share_ge_half_iff p.reject (p.approve + p.reject + p.pass) htot
      have e3 := share_ge_half_iff p.pass (p.approve + p.reject + p.pass) htot
      simp only [e1, e2, e3]
      split_ifs <;> rfl
  refine ⟨main, ?_, ?_, ?_, ?_, ?_⟩
  · intro m key p h hlen
    simp only [get_proposal_status, h, hlen]
    norm_num
  all_goals norm_num [get_proposal_status, mapGet]

theorem get_proposal_status_spec_witness :
    get_proposal_status [(7, ⟨"d", 1, 0, 1, true, [3, 4], 9⟩)] 7 =
      some "Undecided" ∧
    get_proposal_status [(7, ⟨"d", 4, 1, 0, true, [1, 2, 3, 4, 5], 9⟩)] 7 =
      some "Approved" := by
  have h1 := get_proposal_status_spec.1 [(7, ⟨"d", 1, 0, 1, true, [3, 4], 9⟩)]
    7 ⟨"d", 1, 0, 1, true, [3, 4], 9⟩ rfl (by decide)
  have h2 := get_proposal_status_spec.1
    [(7, ⟨"d", 4, 1, 0, true, [1, 2, 3, 4, 5], 9⟩)] 7
    ⟨"d", 4, 1, 0, true, [1, 2, 3, 4, 5], 9⟩ rfl (by decide)
  exact ⟨h1.trans (by norm_num), h2.trans (by norm_num)⟩

example : mapGet (create_proposal 1 [] 7 ⟨"d", true⟩).2 7 =
    some ⟨"d", 0, 0, 0, true, [], 1⟩ := by decide

example :
    get_proposal_status
      [(7, ⟨"d", 3, 1, 1, true, [10, 11, 12, 13, 14], 1⟩)] 7 =
    some "Approved" := by norm_num [get_proposal_status, mapGet]

example :
    get_proposal_status
      [(7, ⟨"d", 2, 2, 1, true, [10, 11, 12, 13, 14], 1⟩)] 7 =
    some "Undecided" := by norm_num [get_proposal_status, mapGet]

example :
    get_proposal_status
      [(7, ⟨"d", 2, 1, 1, true, [10, 11, 12, 13], 1⟩)] 7 =
    some "Undecided" := by norm_num [get_proposal_status, mapGet]
